import Mathlib

/-!
Shallow embedding of the dtype conversion engine of `skimage/util/dtype.py`
(functions `_check_precision_loss`, `convert` with its nested helpers
`sign_loss`, `_dtype_itemsize`, `_dtype_bits`, `_scale`, and the public
wrapper `img_as_float32`).

Modelling conventions:
- numpy dtypes become a `DType` (kind and byte width); `np.bool_` and
  `np.bool8` are the same numpy scalar type and become the single
  descriptor `b1dt`.
- integer arrays become `List ℤ`, floating point arrays become `List ℚ`
  (floating point arithmetic is modelled exactly over the rationals; the
  computation-width selection of `_dtype_itemsize` only affects rounding
  precision, which is not modelled), boolean arrays become `List Bool`.
- numpy `astype` / in-place arithmetic on an integer dtype wraps modulo
  the dtype width; this is `wrapCast`.  `view` reinterprets the twos-complement bit pattern; this is `viewAs`.
- warnings issued through `warn` become `Warning` tags collected in a
  list, in emission order.
- raised exceptions become `ConvErr` values:  `unsupported` for the
  `ValueError` of the supported-dtype check, `outOfRange` for the
  `ValueError` of the float range check, `nameError` for the calls of the
  undefined name `prec_loss` inside `_scale` (the file defines no such
  function, so those calls raise `NameError` at run time), and `stopIter`
  for an exhausted `next` inside `_dtype_bits`.
- `npMaxZ`, `npMinQ`, `npMaxQ` model `a.max()` / `np.min` / `np.max` on a
  nonempty array; on an empty list they default to 0 (numpy would raise
  on an empty reduction, a case no theorem below relies on).
-/

namespace SkImage

/-- Numeric kind of a numpy dtype: the `.kind` character, restricted to the
kinds handled by `skimage.util.dtype` (`b`, `u`, `i`, `f`). -/
inductive NumKind
  | b
  | u
  | i
  | f
deriving DecidableEq

/-- A numpy dtype descriptor: kind plus `itemsize` in bytes. -/
structure DType where
  kind : NumKind
  itemsize : ℕ
deriving DecidableEq

def b1dt : DType := ⟨.b, 1⟩
def u1dt : DType := ⟨.u, 1⟩
def u2dt : DType := ⟨.u, 2⟩
def u4dt : DType := ⟨.u, 4⟩
def u8dt : DType := ⟨.u, 8⟩
def i1dt : DType := ⟨.i, 1⟩
def i2dt : DType := ⟨.i, 2⟩
def i4dt : DType := ⟨.i, 4⟩
def i8dt : DType := ⟨.i, 8⟩
def f2dt : DType := ⟨.f, 2⟩
def f4dt : DType := ⟨.f, 4⟩
def f8dt : DType := ⟨.f, 8⟩

/-- The `_supported_types` tuple of `dtype.py` (lines 23-26); `np.bool_`
and `np.bool8` are the same scalar type. -/
def _supported_types : List DType :=
  [b1dt, u1dt, u2dt, u4dt, u8dt, i1dt, i2dt, i4dt, i8dt, f2dt, f4dt, f8dt]

/-- Minimum representable value, `np.iinfo(dtype).min` for integer kinds
(0 for the others, where the code never asks for it). -/
def imin (dt : DType) : ℤ :=
  match dt.kind with
  | .i => -(2 ^ (8 * dt.itemsize - 1))
  | _ => 0

/-- Maximum representable value, `np.iinfo(dtype).max` for integer kinds
(0 for the others, where the code never asks for it). -/
def imax (dt : DType) : ℤ :=
  match dt.kind with
  | .u => 2 ^ (8 * dt.itemsize) - 1
  | .i => 2 ^ (8 * dt.itemsize - 1) - 1
  | _ => 0

/-- The upper end of `dtype_range` (lines 9-21): `True`, i.e. 1, for
booleans, the integer maximum for integer kinds, and 1.0 for floats. -/
def rangeMaxQ (dt : DType) : ℚ :=
  match dt.kind with
  | .b => 1
  | .f => 1
  | _ => (imax dt : ℚ)

/-- A numpy C-style cast into an integer dtype: wraps modulo the width
(twos-complement wrap for signed kinds); the identity on non-integer kinds. -/
def wrapCast (dt : DType) (z : ℤ) : ℤ :=
  match dt.kind with
  | .u => z % 2 ^ (8 * dt.itemsize)
  | .i => (z + 2 ^ (8 * dt.itemsize - 1)) % 2 ^ (8 * dt.itemsize) - 2 ^ (8 * dt.itemsize - 1)
  | _ => z

/-- numpy `view`: reinterpret the twos-complement bit pattern of a value
stored in dtype `src` as a value of dtype `dst` (of equal itemsize at
every call site below). -/
def viewAs (src dst : DType) (z : ℤ) : ℤ :=
  wrapCast dst (z % 2 ^ (8 * src.itemsize))

/-- Truncation toward zero, the C cast a numpy float-to-integer `astype`
performs. -/
def truncQ (q : ℚ) : ℤ :=
  if 0 ≤ q then ⌊q⌋ else ⌈q⌉

/-- Round half to even, the behaviour of `np.rint`. -/
def rintQ (q : ℚ) : ℤ :=
  if q - ⌊q⌋ < 1 / 2 then ⌊q⌋
  else if 1 / 2 < q - ⌊q⌋ then ⌊q⌋ + 1
  else if ⌊q⌋ % 2 = 0 then ⌊q⌋ else ⌊q⌋ + 1

/-- The effect of `np.clip(z, lo, hi)` on integers (for `lo ≤ hi`). -/
def clipZ (lo hi z : ℤ) : ℤ := min (max z lo) hi

/-- The effect of `np.clip(q, lo, hi)` on rationals (for `lo ≤ hi`). -/
def clipQ (lo hi q : ℚ) : ℚ := min (max q lo) hi

/-- Model of `a.max()` on an integer array (nonempty; defaults to 0 on an
empty list, where numpy would raise). -/
def npMaxZ (l : List ℤ) : ℤ := l.foldl max (l.headD 0)

/-- Model of `np.min(image)` on a float array (nonempty; defaults to 0 on
an empty list, where numpy would raise). -/
def npMinQ (l : List ℚ) : ℚ := l.foldl min (l.headD 0)

/-- Model of `np.max(image)` on a float array (nonempty; defaults to 0 on
an empty list, where numpy would raise). -/
def npMaxQ (l : List ℚ) : ℚ := l.foldl max (l.headD 0)

/-- Array payload: boolean, integer, or floating point values. -/
inductive ArrData
  | bools (l : List Bool)
  | ints (l : List ℤ)
  | floats (l : List ℚ)
deriving DecidableEq

/-- A numpy array for the purposes of `convert`: a dtype descriptor and
the element values. -/
structure Image where
  dtype : DType
  data : ArrData
deriving DecidableEq

/-- The array is consistent with its dtype descriptor and every value is
representable: booleans carry kind `b`; integer payloads carry kind `u`
or `i` with every value inside `[imin, imax]`; float payloads carry kind
`f` with every value inside the canonical normalized range `[-1, 1]`. -/
def wellFormed (img : Image) : Bool :=
  match img.data with
  | .bools _ => img.dtype.kind = NumKind.b
  | .ints l =>
      (img.dtype.kind = NumKind.u ∨ img.dtype.kind = NumKind.i)
        && l.all (fun v => imin img.dtype ≤ v && v ≤ imax img.dtype)
  | .floats l =>
      (img.dtype.kind = NumKind.f) && l.all (fun v => (-1 : ℚ) ≤ v && v ≤ 1)

/-- Every value of the payload lies inside the representable range of the
descriptor `dt` (booleans trivially; integer payloads inside
`[imin dt, imax dt]`; float payloads inside `[-1, 1]`). -/
def dataInRange (dt : DType) : ArrData → Prop
  | .bools _ => True
  | .ints l => ∀ v ∈ l, imin dt ≤ v ∧ v ≤ imax dt
  | .floats l => ∀ v ∈ l, (-1 : ℚ) ≤ v ∧ v ≤ 1

/-- Warning categories issued by the converter: the precision-loss check
of `_check_precision_loss`, the `sign_loss` message, and the
"Downcasting ... without scaling" message of `_scale`. -/
inductive Warning
  | precLoss
  | signLoss
  | downcast
deriving DecidableEq

/-- Exceptions the code can raise, see the module docstring. -/
inductive ConvErr
  | unsupported
  | outOfRange
  | nameError
  | stopIter
  | badData
deriving DecidableEq

/-- Result of a successful `convert` call: the output array, the warnings
in emission order, and whether the returned buffer is the input buffer
(true only on the same-dtype fast path without `force_copy`). -/
structure ConvResult where
  out : Image
  warnings : List Warning
  aliased : Bool
deriving DecidableEq

/-- Decidable equality of `Except` results, so that concrete runs of the
converter can be checked by `decide`. -/
instance {ε α : Type} [DecidableEq ε] [DecidableEq α] : DecidableEq (Except ε α) := fun x y =>
  match x, y with
  | .error a, .error b =>
      if h : a = b then isTrue (by rw [h]) else isFalse (by simp [h])
  | .ok a, .ok b =>
      if h : a = b then isTrue (by rw [h]) else isFalse (by simp [h])
  | .error _, .ok _ => isFalse (by simp)
  | .ok _, .error _ => isFalse (by simp)

/-- Embedding of `_check_precision_loss` (dtype.py lines 29-95), as the pure predicate
it is: it inspects only the two dtype descriptors (plus the
`int_same_size_lossy` flag) and performs no conversion.  Warning emission
is handled by the caller via `convertWarnings`. -/
def _check_precision_loss (din dout : DType) (int_same_size_lossy : Bool) : Bool :=
  if din.kind ≠ .b ∧ dout.kind = .b then true
  else if din.kind = .f ∧ dout.kind = .f then
    decide (dout.itemsize < din.itemsize)
  else if din.kind = .f then true
  else if dout.kind = .f then
    decide (dout.itemsize ≤ din.itemsize)
  else if (din.kind = .i ∧ dout.kind = .i) ∨ (din.kind = .u ∧ dout.kind = .u) then
    decide (dout.itemsize < din.itemsize)
      || (int_same_size_lossy && decide (dout.itemsize = din.itemsize))
  else if din.kind = .u ∧ dout.kind = .i then
    decide (dout.itemsize ≤ din.itemsize)
  else if din.kind = .i ∧ dout.kind = .u then
    decide (dout.itemsize < din.itemsize)
  else false

/-- The precision-loss table of the specification, written as a direct
match over the kind pair: non-bool to bool is lossy; float to float is
lossy iff the output is narrower; float to integer or bool is always
lossy; integer to float is lossy iff input width is at least output
width; same-signedness integer conversions are lossy iff the output is
narrower, or the widths are equal and the same-size-lossy flag is set;
unsigned to signed is lossy iff input width is at least output width;
signed to unsigned is lossy iff the output is narrower; nothing else
(in particular no conversion out of bool) is lossy. -/
def specLossTable (din dout : DType) (flag : Bool) : Bool :=
  match din.kind, dout.kind with
  | .u, .b | .i, .b | .f, .b => true
  | .f, .f => decide (dout.itemsize < din.itemsize)
  | .f, .u | .f, .i => true
  | .u, .f | .i, .f => decide (dout.itemsize ≤ din.itemsize)
  | .i, .i | .u, .u =>
      decide (dout.itemsize < din.itemsize)
        || (flag && decide (dout.itemsize = din.itemsize))
  | .u, .i => decide (dout.itemsize ≤ din.itemsize)
  | .i, .u => decide (dout.itemsize < din.itemsize)
  | .b, _ => false

/-- The call `_check_precision_loss(dtype_in, dtype_out,
issue_warnings=issue_warnings)` at dtype.py line 289: the precision-loss
warning is emitted iff the flag is set and the predicate holds (the
`int_same_size_lossy` flag keeps its default `False`). -/
def convertWarnings (din dout : DType) (issueWarnings : Bool) : List Warning :=
  if issueWarnings && _check_precision_loss din dout false then [Warning.precLoss] else []

/-- Nested helper `_dtype_itemsize` (lines 194-196): the first candidate
dtype whose itemsize is at least the requested one.  It only selects the
float width used as computation type; since float arithmetic is modelled
exactly, the choice does not influence any modelled value. -/
def _dtype_itemsize (itemsize : ℕ) (dtypes : List DType) : Option DType :=
  dtypes.find? (fun dt => decide (itemsize ≤ dt.itemsize))

/-- Nested helper `_dtype_bits` (lines 198-208): the first itemsize among
`(itemsize, 2, 4, 8)` whose width can hold `bits` bits (non-strict
comparison for unsigned kinds, strict otherwise, reserving the sign
bit).  `none` models the `StopIteration` of an exhausted `next`. -/
def _dtype_bits (kind : NumKind) (bits : ℕ) (itemsize : ℕ) : Option DType :=
  ([itemsize, 2, 4, 8].find? (fun i =>
      if kind = .u then decide (bits ≤ i * 8) else decide (bits < i * 8))).map
    (fun s => DType.mk kind s)

/-- Result of the nested `_scale` helper: values, the dtype they are
stored in, and the warnings it emitted. -/
structure ScaleOut where
  data : List ℤ
  dtype : DType
  warns : List Warning
deriving DecidableEq

/-- Nested helper `_scale` (lines 210-280): rescale values occupying `n`
significant bits to `m` significant bits.

- narrowing whose maximum already fits in `m` bits (strict `<` on
  `a.max()`): plain cast to `_dtype_bits(kind, m)` with the unconditional
  "Downcasting" warning (lines 233-242);
- `n = m`: copy (lines 243-244);
- true narrowing and the final non-multiple upscale branch call
  `prec_loss()` first (lines 247 and 269); no function of that name
  exists anywhere in the module, so both branches raise `NameError`
  before touching the data;
- exact upscale when `m` is a multiple of `n` (lines 256-265): multiply
  by `(2^m - 1) // (2^n - 1)` into `_dtype_bits(kind, m)` (with the array
  itemsize as first candidate in the in-place variant).  The multiply is
  performed in the output dtype; a single outer `wrapCast` is equal to
  wrapping each intermediate, since `wrapCast` respects congruence
  modulo the width. -/
def _scale (a : List ℤ) (adt : DType) (n m : ℕ) (copy : Bool) :
    Except ConvErr ScaleOut :=
  if n > m ∧ npMaxZ a < 2 ^ m then
    match _dtype_bits adt.kind m 1 with
    | none => .error .stopIter
    | some dt => .ok ⟨a.map (fun v => wrapCast dt v), dt, [Warning.downcast]⟩
  else if n = m then
    .ok ⟨a, adt, []⟩
  else if n > m then
    .error .nameError
  else if m % n = 0 then
    match (if copy then _dtype_bits adt.kind m 1 else _dtype_bits adt.kind m adt.itemsize) with
    | none => .error .stopIter
    | some dt =>
        .ok ⟨a.map (fun v => wrapCast dt (v * ((2 ^ m - 1) / (2 ^ n - 1)))), dt, []⟩
  else
    .error .nameError

/-- Round `q` to the nearest integer multiple of the positive step `s`,
ties to the even multiple (the IEEE default rounding, applied on a fixed
grid). -/
def roundHalfEvenMult (s q : ℚ) : ℚ :=
  if q / s - ⌊q / s⌋ < 1 / 2 then ⌊q / s⌋ * s
  else if 1 / 2 < q / s - ⌊q / s⌋ then (⌊q / s⌋ + 1) * s
  else if ⌊q / s⌋ % 2 = 0 then ⌊q / s⌋ * s else (⌊q / s⌋ + 1) * s

/-- Correct rounding of a positive rational to an IEEE binary64 double,
as performed by a Python true division of integers: round to the nearest
multiple of `2 ^ (e - 52)` where `e` is the binary exponent of `q`, ties
to even.  Overflow and the subnormal range never arise at the call sites
(every argument lies between 1/2 and `2 ^ 63`); nonpositive arguments are
returned unchanged (only 0 occurs, which is exact). -/
def float64Round (q : ℚ) : ℚ :=
  if q ≤ 0 then q
  else roundHalfEvenMult ((2 : ℚ) ^ (Int.log 2 q - 52)) q

/-- The `# any -> binary` block (lines 291-295).  `sign_loss()` is called
for float and signed input kinds; its `issue_warnings` parameter defaults
to `True` and the call passes no argument, so the warning ignores the
outer `issue_warnings` flag.  The threshold is
`dtype_in(dtype_range[dtype_in][1] / 2)`: the Python true division
produces the correctly rounded double of `imax / 2` (`float64Round`) and
the numpy scalar cast truncates toward zero (`truncQ`).  For integer
widths up to 4 bytes the half-integer `imax / 2` is exactly representable
and the threshold is the floored `imax / 2`, but for the 64-bit dtypes
the double rounding bumps it up to `2 ^ 63` (uint64) and `2 ^ 62` (int64)
before the cast.  For float kinds the threshold is exactly 1/2. -/
def convertAnyToBool (image : Image) (dtypeOut : DType) (ws : List Warning) :
    Except ConvErr ConvResult :=
  let ws2 := ws ++ (if image.dtype.kind = .f ∨ image.dtype.kind = .i
                    then [Warning.signLoss] else [])
  match image.data with
  | .ints l =>
      .ok ⟨⟨dtypeOut,
            .bools (l.map (fun v =>
              decide (truncQ (float64Round ((imax image.dtype : ℚ) / 2)) < v)))⟩, ws2, false⟩
  | .floats l =>
      .ok ⟨⟨dtypeOut, .bools (l.map (fun v => decide ((1 : ℚ) / 2 < v)))⟩, ws2, false⟩
  | .bools _ => .error .badData

/-- The `# binary -> any` block (lines 297-302): cast booleans to 0/1 and,
unless the target is a float, multiply in place by the target range
maximum. -/
def convertBoolToAny (image : Image) (dtypeOut : DType) (ws : List Warning) :
    Except ConvErr ConvResult :=
  match image.data with
  | .bools l =>
      if dtypeOut.kind = .f then
        .ok ⟨⟨dtypeOut, .floats (l.map (fun b => if b then 1 else 0))⟩, ws, false⟩
      else
        .ok ⟨⟨dtypeOut,
              .ints (l.map (fun b => wrapCast dtypeOut ((if b then 1 else 0) * imax dtypeOut)))⟩,
             ws, false⟩
  | _ => .error .badData

/-- The `# float -> any` block (lines 304-340).  The range check raises
before anything else; float to float is a plain cast; float to integer
multiplies (with the extra `- 1/2` shift for signed targets), rounds with
`np.rint`, and clips in the non-uniform mode, while the uniform mode
multiplies by range-plus-one and clips, with `np.floor` only for signed
targets; the closing `astype` truncates toward zero, which is the
identity everywhere the value has already been rounded or floored. -/
def convertFloatIn (image : Image) (dtypeOut : DType) (uniform : Bool) (ws : List Warning) :
    Except ConvErr ConvResult :=
  match image.data with
  | .floats l =>
      if npMinQ l < -1 ∨ 1 < npMaxQ l then .error .outOfRange
      else if dtypeOut.kind = .f then
        .ok ⟨⟨dtypeOut, .floats l⟩, ws, false⟩
      else if !uniform then
        .ok ⟨⟨dtypeOut,
              .ints (l.map (fun v =>
                clipZ (imin dtypeOut) (imax dtypeOut)
                  (rintQ (if dtypeOut.kind = .u then v * (imax dtypeOut : ℚ)
                          else v * (((imax dtypeOut : ℚ) - (imin dtypeOut : ℚ)) / 2) - 1 / 2))))⟩,
             ws, false⟩
      else if dtypeOut.kind = .u then
        .ok ⟨⟨dtypeOut,
              .ints (l.map (fun v =>
                truncQ (clipQ 0 (imax dtypeOut : ℚ) (v * ((imax dtypeOut : ℚ) + 1)))))⟩,
             ws, false⟩
      else
        .ok ⟨⟨dtypeOut,
              .ints (l.map (fun v =>
                clipZ (imin dtypeOut) (imax dtypeOut)
                  ⌊v * (((imax dtypeOut : ℚ) - (imin dtypeOut : ℚ) + 1) / 2)⌋))⟩,
             ws, false⟩
  | _ => .error .badData

/-- The `# signed/unsigned int -> float` block (lines 342-359): unsigned
values are scaled by `1/imax`, signed values by `2/(imax - imin)` with an
additive `1/(imax - imin)` offset. -/
def convertIntToFloat (image : Image) (dtypeOut : DType) (ws : List Warning) :
    Except ConvErr ConvResult :=
  match image.data with
  | .ints l =>
      if image.dtype.kind = .u then
        .ok ⟨⟨dtypeOut,
              .floats (l.map (fun z : ℤ => (z : ℚ) * (1 / (imax image.dtype : ℚ))))⟩, ws, false⟩
      else
        .ok ⟨⟨dtypeOut,
              .floats (l.map (fun z : ℤ =>
                (z : ℚ) * (2 / ((imax image.dtype : ℚ) - (imin image.dtype : ℚ)))
                  + 1 / ((imax image.dtype : ℚ) - (imin image.dtype : ℚ))))⟩, ws, false⟩
  | _ => .error .badData

/-- The `# unsigned int -> signed/unsigned int` block (lines 361-369):
scale to one fewer bit and `view` as the signed target, or scale to the
full target width and return the scaled array as is. -/
def convertFromUint (image : Image) (dtypeOut : DType) (ws : List Warning) :
    Except ConvErr ConvResult :=
  match image.data with
  | .ints l =>
      if dtypeOut.kind = .i then
        match _scale l image.dtype (8 * image.dtype.itemsize) (8 * dtypeOut.itemsize - 1) true with
        | .error e => .error e
        | .ok s =>
            .ok ⟨⟨dtypeOut, .ints (s.data.map (fun v => viewAs s.dtype dtypeOut v))⟩,
                 ws ++ s.warns, false⟩
      else
        match _scale l image.dtype (8 * image.dtype.itemsize) (8 * dtypeOut.itemsize) true with
        | .error e => .error e
        | .ok s => .ok ⟨⟨s.dtype, .ints s.data⟩, ws ++ s.warns, false⟩
  | _ => .error .badData

/-- The `# signed int -> unsigned int` block (lines 371-377): the
argument-less `sign_loss()` call warns regardless of the outer
`issue_warnings` flag (the nested default shadows it); then scale from
`width-1` effective bits and clamp at zero via `np.maximum` computed in
the scaled dtype and stored with an unsafe cast into the target. -/
def convertIntToUint (image : Image) (dtypeOut : DType) (ws : List Warning) :
    Except ConvErr ConvResult :=
  match image.data with
  | .ints l =>
      match _scale l image.dtype (8 * image.dtype.itemsize - 1) (8 * dtypeOut.itemsize) true with
      | .error e => .error e
      | .ok s =>
          .ok ⟨⟨dtypeOut, .ints (s.data.map (fun v => wrapCast dtypeOut (max v 0)))⟩,
               (ws ++ [Warning.signLoss]) ++ s.warns, false⟩
  | _ => .error .badData

/-- The `# signed int -> signed int` block (lines 379-387): narrowing
scales directly between `width-1` bit magnitudes and returns the scaled
array; widening casts to `_dtype_bits` of kind i at `itemsize_out * 8` bits, rebias by
`- imin_in`, scales in place, rebias by `+ imin_out`, and casts to the
target. -/
def convertIntToInt (image : Image) (dtypeOut : DType) (ws : List Warning) :
    Except ConvErr ConvResult :=
  match image.data with
  | .ints l =>
      if dtypeOut.itemsize < image.dtype.itemsize then
        match _scale l image.dtype (8 * image.dtype.itemsize - 1) (8 * dtypeOut.itemsize - 1) true with
        | .error e => .error e
        | .ok s => .ok ⟨⟨s.dtype, .ints s.data⟩, ws ++ s.warns, false⟩
      else
        match _dtype_bits .i (dtypeOut.itemsize * 8) 1 with
        | none => .error .stopIter
        | some wdt =>
            match _scale (l.map (fun v => wrapCast wdt (wrapCast wdt v - imin image.dtype))) wdt
                (8 * image.dtype.itemsize) (8 * dtypeOut.itemsize) false with
            | .error e => .error e
            | .ok s =>
                .ok ⟨⟨dtypeOut,
                      .ints (s.data.map (fun v =>
                        wrapCast dtypeOut (wrapCast s.dtype (v + imin dtypeOut))))⟩,
                     ws ++ s.warns, false⟩
  | _ => .error .badData

/-- Embedding of `convert` (dtype.py lines 125-387).  The same-dtype fast path (lines
179-182) returns the input buffer itself (a copy when `force_copy` is
set) before the supported-dtype check and before any validation; then the
supported check (lines 184-186), the unconditional precision-loss check
(line 289), and the kind-pair dispatch in source order. -/
def convert (image : Image) (dtypeOut : DType) (forceCopy uniform issueWarnings : Bool) :
    Except ConvErr ConvResult :=
  if image.dtype = dtypeOut then .ok ⟨image, [], !forceCopy⟩
  else if ¬ (image.dtype ∈ _supported_types ∧ dtypeOut ∈ _supported_types) then
    .error .unsupported
  else if dtypeOut.kind = .b then
    convertAnyToBool image dtypeOut (convertWarnings image.dtype dtypeOut issueWarnings)
  else if image.dtype.kind = .b then
    convertBoolToAny image dtypeOut (convertWarnings image.dtype dtypeOut issueWarnings)
  else if image.dtype.kind = .f then
    convertFloatIn image dtypeOut uniform (convertWarnings image.dtype dtypeOut issueWarnings)
  else if dtypeOut.kind = .f then
    convertIntToFloat image dtypeOut (convertWarnings image.dtype dtypeOut issueWarnings)
  else if image.dtype.kind = .u then
    convertFromUint image dtypeOut (convertWarnings image.dtype dtypeOut issueWarnings)
  else if dtypeOut.kind = .u then
    convertIntToUint image dtypeOut (convertWarnings image.dtype dtypeOut issueWarnings)
  else
    convertIntToInt image dtypeOut (convertWarnings image.dtype dtypeOut issueWarnings)

/-- Embedding of `img_as_float32` (lines 390-415).  The wrapper accepts an
`issue_warnings` parameter but its body is
`convert(image, np.float32, force_copy)`, which forwards neither
`issue_warnings` nor anything else beyond `force_copy`, so `convert`
runs with its own default `issue_warnings=True`. -/
def img_as_float32 (image : Image) (forceCopy : Bool)
    (issueWarnings : Bool) : Except ConvErr ConvResult :=
  convert image f4dt forceCopy false true

/-- The per-element threshold rule of the amended claim: a value maps to
true iff it is strictly greater than the double-precision rounding of
half the input range maximum (for float inputs the half is 1/2, which is
exact). -/
def roundedMidpointThreshold (dt : DType) : ArrData → List Bool
  | .bools l => l
  | .ints l => l.map (fun v : ℤ => decide (float64Round (rangeMaxQ dt / 2) < (v : ℚ)))
  | .floats l => l.map (fun v => decide (rangeMaxQ dt / 2 < v))

end SkImage

namespace SkImage

/-- Claim C1: `_check_precision_loss` agrees with the precision-loss table
of the specification on every pair of supported dtype descriptors and
every value of the same-size-lossy flag; being a pure function of the two
descriptors and the flag, it performs no conversion. -/
theorem C1_precision_loss_table :
    ∀ din ∈ _supported_types, ∀ dout ∈ _supported_types, ∀ flag ∈ [false, true],
      _check_precision_loss din dout flag = specLossTable din dout flag := by decide

/-- Witness for C1 at the pair uint16 to int16 with the flag unset, the
case singled out by the repository test suite (lossy, since the unsigned
input width equals the signed output width). -/
theorem C1_witness :
    u2dt ∈ _supported_types ∧ i2dt ∈ _supported_types ∧ false ∈ [false, true]
      ∧ _check_precision_loss u2dt i2dt false = specLossTable u2dt i2dt false
      ∧ _check_precision_loss u2dt i2dt false = true :=
  ⟨by decide, by decide, by decide,
   C1_precision_loss_table u2dt (by decide) i2dt (by decide) false (by decide), by decide⟩

/-- Claim C10: when the target dtype equals the input dtype, `convert`
returns on the fast path (dtype.py lines 179-182), before the
supported-dtype check and before any float validation: the result is the
input array itself, aliasing the input buffer exactly when `force_copy`
is false, with no warnings — for every image, including ones whose dtype
is outside the supported set and float images with values outside
`[-1, 1]`. -/
theorem C10_same_dtype_fast_path (img : Image) (fc u iw : Bool) :
    convert img img.dtype fc u iw = .ok ⟨img, [], !fc⟩ := by
  simp [convert]

/-- Claim C3 (code bug): narrowing a uint16 array with maximum 65535 down
to uint8 enters the lossy branch of `_scale` (dtype.py line 245), whose
first statement calls the undefined name `prec_loss`, so the conversion
raises `NameError` instead of completing with floor-divided values. -/
theorem C3_narrowing_name_error :
    convert ⟨u2dt, .ints [0, 65535]⟩ u1dt false false true = .error .nameError := rfl

/-- Claim C4 (code bug): converting the signed 8-bit array `[-5]` to
uint8 calls `_scale` with `n = 7`, `m = 8`; since 8 is not a multiple of
7, the non-multiple upscale branch (dtype.py line 266) runs and its first
statement calls the undefined name `prec_loss`, raising `NameError`
instead of returning 0 with a sign-loss warning. -/
theorem C4_signed_to_unsigned_name_error :
    convert ⟨i1dt, .ints [-5]⟩ u1dt false false true = .error .nameError := rfl

/-- Claim C5 (code bug): the uint8 to uint16 upscale is the exact
multiply by 257, but converting back narrows with a maximum of 257 that
does not fit in 8 bits, so the lossy branch of `_scale` runs and its
`prec_loss()` call raises `NameError`; the round trip therefore fails for
any uint8 array with a nonzero element instead of recovering it. -/
theorem C5_round_trip_name_error :
    convert ⟨u1dt, .ints [1]⟩ u2dt false false true
        = .ok ⟨⟨u2dt, .ints [257]⟩, [], false⟩
      ∧ convert ⟨u2dt, .ints [257]⟩ u1dt false false true = .error .nameError :=
  ⟨rfl, rfl⟩

/-- Claim C8 (code bug): `issue_warnings=False` does not suppress the
diagnostics.  `img_as_float32` accepts the flag but calls
`convert(image, np.float32, force_copy)` without forwarding it, so the
precision-loss warning fires anyway; and for a signed to unsigned
conversion with `issue_warnings=False`, the sign-loss warning (whose
nested default shadows the flag) and the unconditional downcast warning
are still emitted. -/
theorem C8_issue_warnings_not_honored :
    img_as_float32 ⟨i8dt, .ints [0]⟩ false false
        = .ok ⟨⟨f4dt, .floats [1 / (2 ^ 64 - 1)]⟩, [Warning.precLoss], false⟩
      ∧ convert ⟨i2dt, .ints [5]⟩ u1dt false false false
        = .ok ⟨⟨u1dt, .ints [5]⟩, [Warning.signLoss, Warning.downcast], false⟩ := by
  constructor
  · simp only [img_as_float32, convert]
    norm_num [convertIntToFloat, convertWarnings, _check_precision_loss, _supported_types,
      imax, imin, f8dt, b1dt, u1dt, u2dt, u4dt, u8dt, i1dt, i2dt, i4dt, i8dt, f2dt, f4dt]
    rfl
  · decide

/-- Claim C2, counterexample: a float64 array holding 3/2 converted to
the boolean target does not raise the out-of-range error — the
any-to-boolean branch (dtype.py line 292) runs before the float range
validation (line 306), so the call succeeds and thresholds the value. -/
theorem C2_cex_bool_target_skips_validation :
    convert ⟨f8dt, .floats [3 / 2]⟩ b1dt false false true
      = .ok ⟨⟨b1dt, .bools [true]⟩, [Warning.precLoss, Warning.signLoss], false⟩ := by
  simp only [convert]
  norm_num [convertAnyToBool, convertWarnings, _check_precision_loss, _supported_types,
    f8dt, b1dt, u1dt, u2dt, u4dt, u8dt, i1dt, i2dt, i4dt, i8dt, f2dt, f4dt]

/-- Claim C6, counterexample: converting the int16 array `[-30000, 0]` to
int8 takes the downcast-without-scaling branch (maximum 0 fits in 7
bits), whose `astype` wraps the out-of-range value -30000 to -48 instead
of clamping it to the target minimum -128. -/
theorem C6_cex_downcast_wraps :
    convert ⟨i2dt, .ints [-30000, 0]⟩ i1dt false false true
        = .ok ⟨⟨i1dt, .ints [-48, 0]⟩, [Warning.precLoss, Warning.downcast], false⟩
      ∧ (-48 : ℤ) ≠ clipZ (imin i1dt) (imax i1dt) (-30000) :=
  ⟨rfl, by decide⟩

/-- Claim C7, counterexample: converting the uint64 array `[0..9]` to
int16 does emit the precision-loss notification — `convert` runs
`_check_precision_loss` unconditionally at dtype.py line 289 and the pair
uint64/int16 is flagged lossy — in addition to the downcast
notification, contradicting the claim that the precision-loss
notification is absent. -/
theorem C7_cex_precision_warning_fires :
    convert ⟨u8dt, .ints [0, 1, 2, 3, 4, 5, 6, 7, 8, 9]⟩ i2dt false false true
        = .ok ⟨⟨i2dt, .ints [0, 1, 2, 3, 4, 5, 6, 7, 8, 9]⟩,
               [Warning.precLoss, Warning.downcast], false⟩
      ∧ Warning.precLoss ∈ [Warning.precLoss, Warning.downcast] :=
  ⟨rfl, by decide⟩

/-- Auxiliary: a left fold by `max` dominates its accumulator. -/
theorem le_foldl_max (l : List ℚ) : ∀ acc : ℚ, acc ≤ l.foldl max acc := by
  induction l with
  | nil => intro acc; simp
  | cons a t ih => intro acc; exact le_trans (le_max_left acc a) (ih (max acc a))

/-- Auxiliary: a left fold by `max` dominates every member of the list. -/
theorem mem_le_foldl_max (l : List ℚ) : ∀ acc v : ℚ, v ∈ l → v ≤ l.foldl max acc := by
  induction l with
  | nil => intro acc v hv; cases hv
  | cons a t ih =>
    intro acc v hv
    rcases List.mem_cons.mp hv with h | h
    · subst h; exact le_trans (le_max_right acc v) (le_foldl_max t _)
    · exact ih _ v h

/-- Auxiliary: a left fold by `min` is below its accumulator. -/
theorem foldl_min_le (l : List ℚ) : ∀ acc : ℚ, l.foldl min acc ≤ acc := by
  induction l with
  | nil => intro acc; simp
  | cons a t ih => intro acc; exact le_trans (ih (min acc a)) (min_le_left acc a)

/-- Auxiliary: a left fold by `min` is below every member of the list. -/
theorem foldl_min_le_mem (l : List ℚ) : ∀ acc v : ℚ, v ∈ l → l.foldl min acc ≤ v := by
  induction l with
  | nil => intro acc v hv; cases hv
  | cons a t ih =>
    intro acc v hv
    rcases List.mem_cons.mp hv with h | h
    · subst h; exact le_trans (foldl_min_le t _) (min_le_right acc v)
    · exact ih _ v h

/-- Every member of a nonempty float list is at most `npMaxQ` of the list
and at least `npMinQ` of the list. -/
theorem npMinQ_le_le_npMaxQ (l : List ℚ) (v : ℚ) (hv : v ∈ l) :
    npMinQ l ≤ v ∧ v ≤ npMaxQ l :=
  ⟨foldl_min_le_mem l _ v hv, mem_le_foldl_max l _ v hv⟩

/-- Claim C2 (amended): for a supported floating-point input holding some
value outside `[-1, 1]` and any supported non-boolean target dtype
different from the input dtype, `convert` raises the out-of-range
`ValueError` of dtype.py line 307 (a hard error, no clamping); boolean
targets are excluded because the any-to-boolean branch precedes the
validation. -/
theorem C2_float_out_of_range (din dout : DType) (l : List ℚ) (fc u iw : Bool)
    (h1 : din ∈ _supported_types) (h2 : dout ∈ _supported_types)
    (hf : din.kind = .f) (hne : dout ≠ din) (hb : dout.kind ≠ .b)
    (hv : ∃ v ∈ l, v < -1 ∨ 1 < v) :
    convert ⟨din, .floats l⟩ dout fc u iw = .error .outOfRange := by
  have hcond : npMinQ l < -1 ∨ 1 < npMaxQ l := by
    obtain ⟨v, hm, hlt | hgt⟩ := hv
    · exact Or.inl (lt_of_le_of_lt (npMinQ_le_le_npMaxQ l v hm).1 hlt)
    · exact Or.inr (lt_of_lt_of_le hgt (npMinQ_le_le_npMaxQ l v hm).2)
  unfold convert
  rw [if_neg (fun he => hne he.symm), if_neg (not_not_intro ⟨h1, h2⟩), if_neg hb,
    if_neg (by rw [hf]; decide), if_pos hf]
  simp only [convertFloatIn]
  rw [if_pos hcond]

/-- Witness for C2: a float64 array holding 3/2 converted to uint8 raises
the out-of-range error. -/
theorem C2_witness :
    convert ⟨f8dt, .floats [3 / 2]⟩ u1dt false false true = .error .outOfRange :=
  C2_float_out_of_range f8dt u1dt [3 / 2] false false true (by decide) (by decide) rfl
    (by decide) (by decide) ⟨3 / 2, List.mem_singleton.mpr rfl, Or.inr (by norm_num)⟩

/-- Claim C7 (amended): whenever `_scale` narrows (`n > m`) and the array
maximum is strictly below `2 ^ m`, the lossy scaling is skipped — the
result is the direct cast of the values into `_dtype_bits(kind, m)` with
only the downcast notice and no scale-level precision-loss notice; on the
cited input, `convert` of the uint64 array `[0..9]` to int16 returns the
directly cast values with the downcast notification (plus the
precision-loss notification of the unconditional entry check); and the
boundary is strict: at maximum exactly `2 ^ m` the special case is not
taken. -/
theorem C7_downcast_special_case :
    (∀ (a : List ℤ) (adt : DType) (n m : ℕ) (c : Bool) (dt : DType),
        m < n → npMaxZ a < 2 ^ m → _dtype_bits adt.kind m 1 = some dt →
        _scale a adt n m c = .ok ⟨a.map (fun v => wrapCast dt v), dt, [Warning.downcast]⟩)
      ∧ convert ⟨u8dt, .ints [0, 1, 2, 3, 4, 5, 6, 7, 8, 9]⟩ i2dt false false true
        = .ok ⟨⟨i2dt, .ints [0, 1, 2, 3, 4, 5, 6, 7, 8, 9]⟩,
               [Warning.precLoss, Warning.downcast], false⟩
      ∧ _scale [2 ^ 15] u2dt 16 15 true = .error .nameError := by
  refine ⟨?_, by decide, by decide⟩
  intro a adt n m c dt hnm hmax hdb
  unfold _scale
  rw [if_pos ⟨hnm, hmax⟩, hdb]

/-- Witness for C7 on a concrete narrowing: a uint16 array holding 3
scaled from 16 to 8 bits is cast to uint8 unchanged with the downcast
notice. -/
theorem C7_witness :
    _scale [3] u2dt 16 8 true
      = .ok ⟨[3].map (fun v => wrapCast u1dt v), u1dt, [Warning.downcast]⟩ :=
  C7_downcast_special_case.1 [3] u2dt 16 8 true u1dt (by decide) (by decide) (by decide)

/-- Auxiliary: integer maxima of the descriptors are nonnegative. -/
theorem imax_nonneg (dt : DType) : 0 ≤ imax dt := by
  rcases dt with ⟨k, s⟩
  cases k
  · simp [imax]
  · have h2 : (0:ℤ) < 2 ^ (8 * s) := by positivity
    simp only [imax]
    omega
  · have h2 : (0:ℤ) < 2 ^ (8 * s - 1) := by positivity
    simp only [imax]
    omega
  · simp [imax]

/-- Auxiliary: uniqueness of the binary exponent: if `2 ^ k ≤ q < 2 ^ (k+1)`
then `Int.log 2 q = k`. -/
theorem int_log2_eq (q : ℚ) (k : ℤ) (hq : 0 < q)
    (h1 : (2 : ℚ) ^ k ≤ q) (h2 : q < (2 : ℚ) ^ (k + 1)) :
    Int.log 2 q = k := by
  have hup := Int.lt_zpow_succ_log_self (by norm_num : 1 < 2) q
  have hdown := Int.zpow_log_le_self (by norm_num : 1 < 2) hq
  push_cast at hup hdown
  have ha : k < Int.log 2 q + 1 := by
    by_contra hcon
    push_neg at hcon
    have hmono : (2 : ℚ) ^ (Int.log 2 q + 1) ≤ (2 : ℚ) ^ k :=
      zpow_le_zpow_right₀ (by norm_num : (1:ℚ) ≤ 2) hcon
    linarith
  have hb : Int.log 2 q < k + 1 := by
    by_contra hcon
    push_neg at hcon
    have hmono : (2 : ℚ) ^ (k + 1) ≤ (2 : ℚ) ^ (Int.log 2 q) :=
      zpow_le_zpow_right₀ (by norm_num : (1:ℚ) ≤ 2) hcon
    linarith
  omega

/-- Auxiliary: rounding to the double grid keeps nonnegative values
nonnegative. -/
theorem float64Round_nonneg (q : ℚ) (h : 0 ≤ q) : 0 ≤ float64Round q := by
  unfold float64Round
  split_ifs with h0
  · exact h
  · push_neg at h0
    have hs : (0:ℚ) < (2 : ℚ) ^ (Int.log 2 q - 52) := by positivity
    have hn : 0 ≤ ⌊q / (2 : ℚ) ^ (Int.log 2 q - 52)⌋ :=
      Int.floor_nonneg.mpr (le_of_lt (div_pos h0 hs))
    have hnq : (0:ℚ) ≤ (⌊q / (2 : ℚ) ^ (Int.log 2 q - 52)⌋ : ℚ) := by exact_mod_cast hn
    unfold roundHalfEvenMult
    split_ifs
    · exact mul_nonneg hnq hs.le
    · exact mul_nonneg (by linarith) hs.le
    · exact mul_nonneg hnq hs.le
    · exact mul_nonneg (by linarith) hs.le

/-- Auxiliary: a rational that already lies on the binary64 grid of its
own binade is rounded to itself. -/
theorem fl64_exact_helper (q : ℚ) (k n : ℤ) (hq : 0 < q)
    (h1 : (2 : ℚ) ^ k ≤ q) (h2 : q < (2 : ℚ) ^ (k + 1))
    (hn : q = (n : ℚ) * (2 : ℚ) ^ (k - 52)) :
    float64Round q = q := by
  have hlog := int_log2_eq q k hq h1 h2
  have hs : (0:ℚ) < (2 : ℚ) ^ (k - 52) := by positivity
  have hqs : q / (2 : ℚ) ^ (k - 52) = (n : ℚ) := by
    rw [hn, mul_div_assoc, div_self hs.ne', mul_one]
  unfold float64Round
  rw [if_neg (by linarith), hlog]
  unfold roundHalfEvenMult
  rw [hqs, Int.floor_intCast]
  rw [if_pos (by rw [sub_self]; norm_num)]
  exact hn.symm

/-- Auxiliary: a rational strictly above the midpoint of its enclosing
grid interval is rounded up to the next multiple. -/
theorem fl64_roundup_helper (q : ℚ) (k n : ℤ) (hq : 0 < q)
    (h1 : (2 : ℚ) ^ k ≤ q) (h2 : q < (2 : ℚ) ^ (k + 1))
    (hfl : ⌊q / (2 : ℚ) ^ (k - 52)⌋ = n)
    (hr : 1 / 2 < q / (2 : ℚ) ^ (k - 52) - (n : ℚ)) :
    float64Round q = ((n : ℚ) + 1) * (2 : ℚ) ^ (k - 52) := by
  have hlog := int_log2_eq q k hq h1 h2
  unfold float64Round
  rw [if_neg (by linarith), hlog]
  unfold roundHalfEvenMult
  rw [hfl]
  rw [if_neg (by linarith), if_pos (by linarith)]

/-- Auxiliary: the uint64 midpoint (2 ^ 64 - 1) / 2 is rounded up to
2 ^ 63 by the double-precision division. -/
theorem fl64_u8_midpoint : float64Round (rangeMaxQ u8dt / 2) = 2 ^ 63 := by
  have hq8 : rangeMaxQ u8dt = (18446744073709551615 : ℚ) := by
    norm_num [rangeMaxQ, imax, u8dt]
  rw [hq8]
  have h := fl64_roundup_helper (18446744073709551615 / 2) 62 9007199254740991
    (by norm_num) (by norm_num) (by norm_num) (by norm_num) (by norm_num)
  rw [h]
  norm_num

/-- Auxiliary: the int64 midpoint (2 ^ 63 - 1) / 2 is rounded up to
2 ^ 62 by the double-precision division. -/
theorem fl64_i8_midpoint : float64Round (rangeMaxQ i8dt / 2) = 2 ^ 62 := by
  have hq8 : rangeMaxQ i8dt = (9223372036854775807 : ℚ) := by
    norm_num [rangeMaxQ, imax, i8dt]
  rw [hq8]
  have h := fl64_roundup_helper (9223372036854775807 / 2) 61 9007199254740991
    (by norm_num) (by norm_num) (by norm_num) (by norm_num) (by norm_num)
  rw [h]
  norm_num

/-- Auxiliary: for the 1, 2 and 4 byte integer dtypes the midpoint
`imax / 2` is exactly representable as a double, so the rounding is the
identity there. -/
theorem fl64_exact_small :
    ∀ dt ∈ [u1dt, u2dt, u4dt, i1dt, i2dt, i4dt],
      float64Round (rangeMaxQ dt / 2) = rangeMaxQ dt / 2 := by
  intro dt hdt
  fin_cases hdt
  · have hq : rangeMaxQ u1dt = (255 : ℚ) := by norm_num [rangeMaxQ, imax, u1dt]
    rw [hq]
    exact fl64_exact_helper _ 6 (255 * 2 ^ 45) (by norm_num) (by norm_num) (by norm_num)
      (by norm_num)
  · have hq : rangeMaxQ u2dt = (65535 : ℚ) := by norm_num [rangeMaxQ, imax, u2dt]
    rw [hq]
    exact fl64_exact_helper _ 14 (65535 * 2 ^ 37) (by norm_num) (by norm_num) (by norm_num)
      (by norm_num)
  · have hq : rangeMaxQ u4dt = (4294967295 : ℚ) := by norm_num [rangeMaxQ, imax, u4dt]
    rw [hq]
    exact fl64_exact_helper _ 30 (4294967295 * 2 ^ 21) (by norm_num) (by norm_num) (by norm_num)
      (by norm_num)
  · have hq : rangeMaxQ i1dt = (127 : ℚ) := by norm_num [rangeMaxQ, imax, i1dt]
    rw [hq]
    exact fl64_exact_helper _ 5 (127 * 2 ^ 46) (by norm_num) (by norm_num) (by norm_num)
      (by norm_num)
  · have hq : rangeMaxQ i2dt = (32767 : ℚ) := by norm_num [rangeMaxQ, imax, i2dt]
    rw [hq]
    exact fl64_exact_helper _ 13 (32767 * 2 ^ 38) (by norm_num) (by norm_num) (by norm_num)
      (by norm_num)
  · have hq : rangeMaxQ i4dt = (2147483647 : ℚ) := by norm_num [rangeMaxQ, imax, i4dt]
    rw [hq]
    exact fl64_exact_helper _ 29 (2147483647 * 2 ^ 22) (by norm_num) (by norm_num) (by norm_num)
      (by norm_num)

/-- Claim C9 (amended): converting any supported non-boolean well-formed
array to the boolean dtype succeeds and returns, per element, true iff
the value strictly exceeds the DOUBLE-PRECISION ROUNDING of half the
input range maximum, with the sign-loss diagnostic emitted exactly when
the input kind is signed or float; the rounded threshold equals the exact
midpoint for every integer dtype of at most 4 bytes and for float inputs,
but is bumped up to 2 ^ 63 for uint64 and 2 ^ 62 for int64, so the
midpoint rule of the original claim fails at those two dtypes. -/
theorem C9_rounded_threshold :
    (∀ (img : Image) (fc u iw : Bool),
      img.dtype ∈ _supported_types → img.dtype.kind ≠ NumKind.b → wellFormed img = true →
      convert img b1dt fc u iw
        = .ok ⟨⟨b1dt, .bools (roundedMidpointThreshold img.dtype img.data)⟩,
               (if iw then [Warning.precLoss] else [])
                 ++ (if img.dtype.kind = NumKind.f ∨ img.dtype.kind = NumKind.i
                     then [Warning.signLoss] else []),
               false⟩)
    ∧ float64Round (rangeMaxQ u8dt / 2) = 2 ^ 63
    ∧ float64Round (rangeMaxQ i8dt / 2) = 2 ^ 62
    ∧ ∀ dt ∈ [u1dt, u2dt, u4dt, i1dt, i2dt, i4dt],
        float64Round (rangeMaxQ dt / 2) = rangeMaxQ dt / 2 := by
  refine ⟨?_, fl64_u8_midpoint, fl64_i8_midpoint, fl64_exact_small⟩
  intro img fc u iw h1 hk hwf
  have hne : img.dtype ≠ b1dt := fun he => hk (by rw [he]; rfl)
  have hchk : _check_precision_loss img.dtype b1dt false = true := by
    unfold _check_precision_loss
    rw [if_pos ⟨hk, rfl⟩]
  unfold convert
  rw [if_neg hne, if_neg (not_not_intro ⟨h1, by decide⟩),
    if_pos (show b1dt.kind = .b from rfl)]
  unfold convertAnyToBool convertWarnings
  rw [hchk, Bool.and_true]
  obtain ⟨dt, d⟩ := img
  cases d with
  | bools l =>
      exact absurd (by simpa [wellFormed] using hwf) hk
  | ints l =>
      have hwf2 : (dt.kind = NumKind.u ∨ dt.kind = NumKind.i)
          ∧ ∀ x ∈ l, imin dt ≤ x ∧ x ≤ imax dt := by
        simpa [wellFormed] using hwf
      have hq : rangeMaxQ dt = (imax dt : ℚ) := by
        unfold rangeMaxQ
        rcases hwf2.1 with h | h <;> rw [h]
      have hX : (0:ℚ) ≤ float64Round ((imax dt : ℚ) / 2) :=
        float64Round_nonneg _ (div_nonneg (by exact_mod_cast imax_nonneg dt) (by norm_num))
      have hfun : (fun v : ℤ => decide (truncQ (float64Round ((imax dt : ℚ) / 2)) < v))
          = (fun v : ℤ => decide (float64Round (rangeMaxQ dt / 2) < (v : ℚ))) := by
        funext v
        rw [decide_eq_decide, hq]
        unfold truncQ
        rw [if_pos hX]
        exact Int.floor_lt
      simp only [roundedMidpointThreshold, hfun]
  | floats l =>
      have hwf2 : dt.kind = NumKind.f ∧ ∀ x ∈ l, (-1:ℚ) ≤ x ∧ x ≤ 1 := by
        simpa [wellFormed] using hwf
      have hq : rangeMaxQ dt = 1 := by unfold rangeMaxQ; rw [hwf2.1]
      simp only [roundedMidpointThreshold, hq]

/-- Witness for C9 at the cited input: the uint8 array `[0, 128, 255]`
converted to booleans gives `[false, true, true]` (the rounded threshold
is the exact 127.5 for uint8), with only the precision-loss notification
since the input kind is unsigned. -/
theorem C9_witness :
    convert ⟨u1dt, .ints [0, 128, 255]⟩ b1dt false false true
      = .ok ⟨⟨b1dt, .bools [false, true, true]⟩, [Warning.precLoss], false⟩ := by
  have hexact := C9_rounded_threshold.2.2.2 u1dt (by decide)
  rw [C9_rounded_threshold.1 ⟨u1dt, .ints [0, 128, 255]⟩ false false true (by decide) (by decide)
    (by decide)]
  simp only [roundedMidpointThreshold, hexact]
  norm_num [rangeMaxQ, imax, u1dt]
  decide

/-- Counterexample to the exact-midpoint reading of C9: the uint64 value
2 ^ 63 strictly exceeds the exact midpoint (2 ^ 64 - 1) / 2, yet the
conversion maps it to false, because the Python float division rounds the
threshold up to 2 ^ 63 before the integer cast. -/
theorem C9_cex_uint64_boundary :
    convert ⟨u8dt, .ints [2 ^ 63]⟩ b1dt false false true
      = .ok ⟨⟨b1dt, .bools [false]⟩, [Warning.precLoss], false⟩
    ∧ rangeMaxQ u8dt / 2 < ((2 ^ 63 : ℤ) : ℚ) := by
  constructor
  · have hrm : rangeMaxQ u8dt = ((imax u8dt : ℤ) : ℚ) := rfl
    have hT : truncQ (float64Round ((imax u8dt : ℚ) / 2)) = 2 ^ 63 := by
      have h63 : float64Round ((imax u8dt : ℚ) / 2) = ((2 ^ 63 : ℤ) : ℚ) := by
        rw [← hrm, fl64_u8_midpoint]
        norm_num
      rw [h63]
      unfold truncQ
      rw [if_pos (by positivity), Int.floor_intCast]
    unfold convert
    rw [if_neg (by decide), if_neg (by decide), if_pos (show b1dt.kind = .b from rfl)]
    unfold convertAnyToBool convertWarnings
    dsimp only
    rw [hT]
    norm_num [_check_precision_loss, u8dt, b1dt]
    decide
  · norm_num [rangeMaxQ, imax, u8dt]

/-- Auxiliary: integer minima of the descriptors are nonpositive. -/
theorem imin_nonpos (dt : DType) : imin dt ≤ 0 := by
  rcases dt with ⟨k, s⟩
  cases k
  · simp [imin]
  · simp [imin]
  · have h2 : (0:ℤ) < 2 ^ (8 * s - 1) := by positivity
    simp only [imin]
    omega
  · simp [imin]

/-- Auxiliary: a wrapped cast into an integer dtype of positive width
always lands inside the representable range of that dtype. -/
theorem wrapCast_range (dt : DType) (z : ℤ) (hk : dt.kind = .u ∨ dt.kind = .i)
    (hsz : 1 ≤ dt.itemsize) : imin dt ≤ wrapCast dt z ∧ wrapCast dt z ≤ imax dt := by
  rcases hk with h | h
  · have hM : (0:ℤ) < 2 ^ (8 * dt.itemsize) := by positivity
    have h1 := Int.emod_nonneg z (ne_of_gt hM)
    have h2 := Int.emod_lt_of_pos z hM
    simp only [wrapCast, imin, imax, h]
    omega
  · have hexp : 8 * dt.itemsize = (8 * dt.itemsize - 1) + 1 := by omega
    have hsplit : (2:ℤ) ^ (8 * dt.itemsize) = 2 ^ (8 * dt.itemsize - 1) * 2 := by
      conv_lhs => rw [hexp]
      rw [pow_succ]
    have hM : (0:ℤ) < 2 ^ (8 * dt.itemsize) := by positivity
    have h1 := Int.emod_nonneg (z + 2 ^ (8 * dt.itemsize - 1)) (ne_of_gt hM)
    have h2 := Int.emod_lt_of_pos (z + 2 ^ (8 * dt.itemsize - 1)) hM
    simp only [wrapCast, imin, imax, h]
    omega

/-- Auxiliary: a `view` reinterpretation lands inside the representable
range of the destination dtype. -/
theorem viewAs_range (src dst : DType) (z : ℤ) (hk : dst.kind = .u ∨ dst.kind = .i)
    (hsz : 1 ≤ dst.itemsize) : imin dst ≤ viewAs src dst z ∧ viewAs src dst z ≤ imax dst :=
  wrapCast_range dst _ hk hsz

/-- Auxiliary: clipping lands inside the clip bounds. -/
theorem clipZ_range (lo hi z : ℤ) (h : lo ≤ hi) : lo ≤ clipZ lo hi z ∧ clipZ lo hi z ≤ hi := by
  unfold clipZ
  constructor
  · exact le_min (le_max_right z lo) h
  · exact min_le_right _ hi

/-- Auxiliary: clipping over the rationals lands inside the clip bounds. -/
theorem clipQ_range (lo hi q : ℚ) (h : lo ≤ hi) : lo ≤ clipQ lo hi q ∧ clipQ lo hi q ≤ hi := by
  unfold clipQ
  constructor
  · exact le_min (le_max_right q lo) h
  · exact min_le_right _ hi

/-- Auxiliary: truncation toward zero of a rational between two integer
bounds that straddle zero stays between the bounds. -/
theorem truncQ_range (lo hi : ℤ) (q : ℚ) (hlo : lo ≤ 0) (hhi : 0 ≤ hi)
    (h1 : (lo:ℚ) ≤ q) (h2 : q ≤ (hi:ℚ)) : lo ≤ truncQ q ∧ truncQ q ≤ hi := by
  unfold truncQ
  split_ifs with h0
  · refine ⟨le_trans hlo (Int.floor_nonneg.mpr h0), ?_⟩
    have := Int.floor_mono h2
    rwa [Int.floor_intCast] at this
  · push_neg at h0
    refine ⟨?_, ?_⟩
    · have := Int.ceil_mono h1
      rwa [Int.ceil_intCast] at this
    · have hle : ⌈q⌉ ≤ ⌈(0:ℚ)⌉ := Int.ceil_mono (le_of_lt h0)
      rw [Int.ceil_zero] at hle
      omega

/-- Auxiliary: the minimum is at most the maximum for every descriptor. -/
theorem imin_le_imax (dt : DType) : imin dt ≤ imax dt :=
  le_trans (imin_nonpos dt) (imax_nonneg dt)

/-- Auxiliary: unsigned scaling by the reciprocal of the maximum maps the
unsigned range into `[-1, 1]` (in fact `[0, 1]`). -/
theorem intToFloat_u_range (dt : DType) (z : ℤ) (hk : dt.kind = .u) (hsz : 1 ≤ dt.itemsize)
    (h0 : 0 ≤ z) (h1 : z ≤ imax dt) :
    -1 ≤ (z:ℚ) * (1 / (imax dt : ℚ)) ∧ (z:ℚ) * (1 / (imax dt : ℚ)) ≤ 1 := by
  have hpos : (0:ℤ) < imax dt := by
    have hple : (2:ℤ) ^ 8 ≤ 2 ^ (8 * dt.itemsize) :=
      pow_le_pow_right₀ (by norm_num) (by omega)
    simp only [imax, hk]
    omega
  have hposq : (0:ℚ) < (imax dt : ℚ) := by exact_mod_cast hpos
  rw [mul_one_div]
  constructor
  · have hnn : (0:ℚ) ≤ (z:ℚ) / imax dt := div_nonneg (by exact_mod_cast h0) (le_of_lt hposq)
    linarith
  · exact (div_le_one hposq).mpr (by exact_mod_cast h1)

/-- Auxiliary: signed scaling by `2/(max - min)` with the compensating
offset `1/(max - min)` maps the signed range onto `[-1, 1]`. -/
theorem intToFloat_i_range (dt : DType) (z : ℤ) (hk : dt.kind = .i) (hsz : 1 ≤ dt.itemsize)
    (h0 : imin dt ≤ z) (h1 : z ≤ imax dt) :
    -1 ≤ (z:ℚ) * (2 / ((imax dt : ℚ) - (imin dt : ℚ))) + 1 / ((imax dt : ℚ) - (imin dt : ℚ))
      ∧ (z:ℚ) * (2 / ((imax dt : ℚ) - (imin dt : ℚ)))
          + 1 / ((imax dt : ℚ) - (imin dt : ℚ)) ≤ 1 := by
  have hexp : 8 * dt.itemsize = (8 * dt.itemsize - 1) + 1 := by omega
  have hsplit : (2:ℤ) ^ (8 * dt.itemsize) = 2 ^ (8 * dt.itemsize - 1) * 2 := by
    conv_lhs => rw [hexp]
    rw [pow_succ]
  have hH : (0:ℤ) < 2 ^ (8 * dt.itemsize - 1) := by positivity
  have himax : imax dt = 2 ^ (8 * dt.itemsize - 1) - 1 := by simp [imax, hk]
  have himin : imin dt = -(2 ^ (8 * dt.itemsize - 1)) := by simp [imin, hk]
  have hDpos : (0:ℤ) < imax dt - imin dt := by omega
  have hlow : -(imax dt - imin dt) ≤ 2 * z + 1 := by omega
  have hhigh : 2 * z + 1 ≤ imax dt - imin dt := by omega
  have hDq : (0:ℚ) < ((imax dt - imin dt : ℤ) : ℚ) := by exact_mod_cast hDpos
  have hD2 : (imax dt : ℚ) - (imin dt : ℚ) = ((imax dt - imin dt : ℤ) : ℚ) := by push_cast; ring
  have hval : (z:ℚ) * (2 / ((imax dt - imin dt : ℤ) : ℚ)) + 1 / ((imax dt - imin dt : ℤ) : ℚ)
      = ((2 * z + 1 : ℤ) : ℚ) / ((imax dt - imin dt : ℤ) : ℚ) := by
    push_cast
    field_simp
    ring
  have hlowq : -(((imax dt - imin dt : ℤ)) : ℚ) ≤ ((2 * z + 1 : ℤ) : ℚ) := by exact_mod_cast hlow
  have hhighq : ((2 * z + 1 : ℤ) : ℚ) ≤ ((imax dt - imin dt : ℤ) : ℚ) := by exact_mod_cast hhigh
  rw [hD2, hval]
  constructor
  · rw [le_div_iff₀ hDq]
    linarith
  · exact (div_le_one hDq).mpr hhighq

/-- Auxiliary: every supported descriptor has a byte width among 1, 2,
4, 8 (so in particular a positive width). -/
theorem supported_itemsize_mem :
    ∀ dt ∈ _supported_types, dt.itemsize ∈ ([1, 2, 4, 8] : List ℕ) := by decide

/-- Auxiliary: `_dtype_bits` on an unsigned full byte width returns the
unsigned dtype of exactly that width. -/
theorem dtbits_u : ∀ w ∈ ([1, 2, 4, 8] : List ℕ),
    _dtype_bits .u (8 * w) 1 = some ⟨.u, w⟩ := by decide

/-- Auxiliary: `_dtype_bits` on a signed width of one bit less than a
full byte width returns the signed dtype of that byte width (the strict
comparison reserves the sign bit). -/
theorem dtbits_i : ∀ w ∈ ([1, 2, 4, 8] : List ℕ),
    _dtype_bits .i (8 * w - 1) 1 = some ⟨.i, w⟩ := by decide

/-- Auxiliary inversion for successful `_scale` calls in copy mode: the
result is either the verbatim array (when `n = m`), or an array obtained
by mapping a wrapped cast into `_dtype_bits(kind, m)` over the input (the
downcast branch casts directly, the exact-multiple branch multiplies
before the cast); the two branches that call the undefined `prec_loss`
never return. -/
theorem scale_true_inv (a : List ℤ) (adt : DType) (n m : ℕ) (s : ScaleOut)
    (h : _scale a adt n m true = .ok s) :
    (n = m ∧ s = ⟨a, adt, []⟩)
      ∨ (_dtype_bits adt.kind m 1 = some s.dtype
          ∧ ∃ g : ℤ → ℤ, s.data = a.map (fun v => wrapCast s.dtype (g v))) := by
  unfold _scale at h
  by_cases hc1 : n > m ∧ npMaxZ a < 2 ^ m
  · rw [if_pos hc1] at h
    cases hdb : _dtype_bits adt.kind m 1 with
    | none => rw [hdb] at h; exact Except.noConfusion h
    | some dt =>
        rw [hdb] at h
        simp only [Except.ok.injEq] at h
        subst h
        exact Or.inr ⟨rfl, fun v => v, rfl⟩
  · rw [if_neg hc1] at h
    by_cases hc2 : n = m
    · rw [if_pos hc2] at h
      simp only [Except.ok.injEq] at h
      subst h
      exact Or.inl ⟨hc2, rfl⟩
    · rw [if_neg hc2] at h
      by_cases hc3 : n > m
      · rw [if_pos hc3] at h
        exact Except.noConfusion h
      · rw [if_neg hc3] at h
        by_cases hc4 : m % n = 0
        · rw [if_pos hc4, if_pos rfl] at h
          cases hdb : _dtype_bits adt.kind m 1 with
          | none => rw [hdb] at h; exact Except.noConfusion h
          | some dt =>
              rw [hdb] at h
              simp only [Except.ok.injEq] at h
              subst h
              exact Or.inr ⟨rfl, fun v => v * ((2 ^ m - 1) / (2 ^ n - 1)), rfl⟩
        · rw [if_neg hc4] at h
          exact Except.noConfusion h

/-- Auxiliary: two descriptors with equal kind and width are equal. -/
theorem dtype_eq (d1 d2 : DType) (h1 : d1.kind = d2.kind) (h2 : d1.itemsize = d2.itemsize) :
    d1 = d2 := by
  rcases d1 with ⟨k1, s1⟩
  rcases d2 with ⟨k2, s2⟩
  obtain rfl : k1 = k2 := h1
  obtain rfl : s1 = s2 := h2
  rfl

/-- Auxiliary: a well-formed array satisfies the range predicate of its
own descriptor. -/
theorem wellFormed_dataInRange (img : Image) (hwf : wellFormed img = true) :
    dataInRange img.dtype img.data := by
  obtain ⟨dt, d⟩ := img
  cases d with
  | bools l => exact trivial
  | ints l =>
      have h2 : (dt.kind = NumKind.u ∨ dt.kind = NumKind.i)
          ∧ ∀ x ∈ l, imin dt ≤ x ∧ x ≤ imax dt := by simpa [wellFormed] using hwf
      exact h2.2
  | floats l =>
      have h2 : dt.kind = NumKind.f ∧ ∀ x ∈ l, (-1:ℚ) ≤ x ∧ x ≤ 1 := by
        simpa [wellFormed] using hwf
      exact h2.2

/-- Containment for the any-to-boolean block: a boolean payload is
trivially inside the boolean range. -/
theorem convertAnyToBool_range (image : Image) (dtypeOut : DType) (ws : List Warning)
    (r : ConvResult) (h : convertAnyToBool image dtypeOut ws = .ok r) :
    dataInRange dtypeOut r.out.data := by
  unfold convertAnyToBool at h
  cases hd : image.data with
  | bools l => rw [hd] at h; exact Except.noConfusion h
  | ints l =>
      rw [hd] at h
      simp only [Except.ok.injEq] at h
      subst h
      exact trivial
  | floats l =>
      rw [hd] at h
      simp only [Except.ok.injEq] at h
      subst h
      exact trivial

/-- Containment for the boolean-to-any block: float targets receive 0 or
1, integer targets receive a wrapped cast. -/
theorem convertBoolToAny_range (image : Image) (dtypeOut : DType) (ws : List Warning)
    (r : ConvResult) (hkb : dtypeOut.kind ≠ .b) (hsz : 1 ≤ dtypeOut.itemsize)
    (h : convertBoolToAny image dtypeOut ws = .ok r) :
    dataInRange dtypeOut r.out.data := by
  unfold convertBoolToAny at h
  cases hd : image.data with
  | bools l =>
      rw [hd] at h
      dsimp only at h
      by_cases hf : dtypeOut.kind = .f
      · rw [if_pos hf] at h
        simp only [Except.ok.injEq] at h
        subst h
        intro v hv
        simp only [List.mem_map] at hv
        obtain ⟨b, hb, hbv⟩ := hv
        subst hbv
        cases b <;> norm_num
      · rw [if_neg hf] at h
        simp only [Except.ok.injEq] at h
        subst h
        intro v hv
        simp only [List.mem_map] at hv
        obtain ⟨b, hb, hbv⟩ := hv
        subst hbv
        refine wrapCast_range dtypeOut _ ?_ hsz
        cases hkk : dtypeOut.kind
        · exact absurd hkk hkb
        · exact Or.inl rfl
        · exact Or.inr rfl
        · exact absurd hkk hf
  | ints l => rw [hd] at h; exact Except.noConfusion h
  | floats l => rw [hd] at h; exact Except.noConfusion h

/-- Containment for the signed-to-unsigned block: every output element is
a wrapped cast into the target dtype. -/
theorem convertIntToUint_range (image : Image) (dtypeOut : DType) (ws : List Warning)
    (r : ConvResult) (hko : dtypeOut.kind = .u) (hsz : 1 ≤ dtypeOut.itemsize)
    (h : convertIntToUint image dtypeOut ws = .ok r) :
    dataInRange dtypeOut r.out.data := by
  unfold convertIntToUint at h
  cases hd : image.data with
  | ints l =>
      rw [hd] at h
      dsimp only at h
      cases hs : _scale l image.dtype (8 * image.dtype.itemsize - 1) (8 * dtypeOut.itemsize) true with
      | error e => rw [hs] at h; exact Except.noConfusion h
      | ok s0 =>
          rw [hs] at h
          simp only [Except.ok.injEq] at h
          subst h
          intro v hv
          simp only [List.mem_map] at hv
          obtain ⟨z, hz, hzv⟩ := hv
          subst hzv
          exact wrapCast_range dtypeOut _ (Or.inl hko) hsz
  | bools l => rw [hd] at h; exact Except.noConfusion h
  | floats l => rw [hd] at h; exact Except.noConfusion h

/-- Containment for the integer-to-float block: unsigned values are
scaled into `[0, 1]`, signed values into `[-1, 1]`. -/
theorem convertIntToFloat_range (image : Image) (dtypeOut : DType) (ws : List Warning)
    (r : ConvResult) (hsz : 1 ≤ image.dtype.itemsize) (hwf : wellFormed image = true)
    (h : convertIntToFloat image dtypeOut ws = .ok r) :
    dataInRange dtypeOut r.out.data := by
  unfold convertIntToFloat at h
  cases hd : image.data with
  | ints l =>
      rw [hd] at h
      dsimp only at h
      have hwf2 : (image.dtype.kind = NumKind.u ∨ image.dtype.kind = NumKind.i)
          ∧ ∀ x ∈ l, imin image.dtype ≤ x ∧ x ≤ imax image.dtype := by
        simpa [wellFormed, hd] using hwf
      by_cases hku : image.dtype.kind = .u
      · rw [if_pos hku] at h
        simp only [Except.ok.injEq] at h
        subst h
        intro v hv
        simp only [List.mem_map] at hv
        obtain ⟨z, hz, hzv⟩ := hv
        subst hzv
        have h0 : imin image.dtype = 0 := by simp [imin, hku]
        refine intToFloat_u_range image.dtype z hku hsz ?_ (hwf2.2 z hz).2
        have := (hwf2.2 z hz).1
        omega
      · rw [if_neg hku] at h
        have hki : image.dtype.kind = .i := hwf2.1.resolve_left hku
        simp only [Except.ok.injEq] at h
        subst h
        intro v hv
        simp only [List.mem_map] at hv
        obtain ⟨z, hz, hzv⟩ := hv
        subst hzv
        exact intToFloat_i_range image.dtype z hki hsz (hwf2.2 z hz).1 (hwf2.2 z hz).2
  | bools l => rw [hd] at h; exact Except.noConfusion h
  | floats l => rw [hd] at h; exact Except.noConfusion h

/-- Containment for the float-input block: float targets keep the
validated values, integer targets are clipped (and, in the uniform
unsigned mode, truncated after the clip). -/
theorem convertFloatIn_range (image : Image) (dtypeOut : DType) (u : Bool) (ws : List Warning)
    (r : ConvResult)
    (h : convertFloatIn image dtypeOut u ws = .ok r) :
    dataInRange dtypeOut r.out.data := by
  unfold convertFloatIn at h
  cases hd : image.data with
  | floats l =>
      rw [hd] at h
      dsimp only at h
      by_cases hrange : npMinQ l < -1 ∨ 1 < npMaxQ l
      · rw [if_pos hrange] at h
        exact Except.noConfusion h
      · rw [if_neg hrange] at h
        push_neg at hrange
        have hle : imin dtypeOut ≤ imax dtypeOut := imin_le_imax dtypeOut
        by_cases hf : dtypeOut.kind = .f
        · rw [if_pos hf] at h
          simp only [Except.ok.injEq] at h
          subst h
          intro v hv
          exact ⟨le_trans hrange.1 (npMinQ_le_le_npMaxQ l v hv).1,
                 le_trans (npMinQ_le_le_npMaxQ l v hv).2 hrange.2⟩
        · rw [if_neg hf] at h
          by_cases hu : (!u) = true
          · rw [if_pos hu] at h
            simp only [Except.ok.injEq] at h
            subst h
            intro v hv
            simp only [List.mem_map] at hv
            obtain ⟨q, hq, hqv⟩ := hv
            subst hqv
            exact clipZ_range _ _ _ hle
          · rw [if_neg hu] at h
            by_cases hou : dtypeOut.kind = .u
            · rw [if_pos hou] at h
              simp only [Except.ok.injEq] at h
              subst h
              intro v hv
              simp only [List.mem_map] at hv
              obtain ⟨q, hq, hqv⟩ := hv
              subst hqv
              have h0 : imin dtypeOut = 0 := by simp [imin, hou]
              have hcq := clipQ_range 0 (imax dtypeOut : ℚ) (q * ((imax dtypeOut : ℚ) + 1))
                (by exact_mod_cast imax_nonneg dtypeOut)
              rw [h0]
              exact truncQ_range 0 (imax dtypeOut) _ le_rfl (imax_nonneg dtypeOut)
                (by exact_mod_cast hcq.1) hcq.2
            · rw [if_neg hou] at h
              simp only [Except.ok.injEq] at h
              subst h
              intro v hv
              simp only [List.mem_map] at hv
              obtain ⟨q, hq, hqv⟩ := hv
              subst hqv
              exact clipZ_range _ _ _ hle
  | bools l => rw [hd] at h; exact Except.noConfusion h
  | ints l => rw [hd] at h; exact Except.noConfusion h

/-- Containment for the unsigned-input block: the signed-target arm is a
`view` reinterpretation into the target; the unsigned-target arm returns
the scaled array, whose dtype a successful `_scale` ties to the target
width. -/
theorem convertFromUint_range (image : Image) (dtypeOut : DType) (ws : List Warning)
    (r : ConvResult) (hki : image.dtype.kind = .u) (hkb : dtypeOut.kind ≠ .b)
    (hkf : dtypeOut.kind ≠ .f) (hne : image.dtype ≠ dtypeOut)
    (hszo : dtypeOut.itemsize ∈ ([1, 2, 4, 8] : List ℕ))
    (h : convertFromUint image dtypeOut ws = .ok r) :
    dataInRange dtypeOut r.out.data := by
  have hsz1 : 1 ≤ dtypeOut.itemsize := by
    have hd4 : dtypeOut.itemsize = 1 ∨ dtypeOut.itemsize = 2 ∨ dtypeOut.itemsize = 4
        ∨ dtypeOut.itemsize = 8 := by simpa using hszo
    omega
  unfold convertFromUint at h
  cases hd : image.data with
  | ints l =>
      rw [hd] at h
      dsimp only at h
      by_cases hko : dtypeOut.kind = .i
      · rw [if_pos hko] at h
        cases hs : _scale l image.dtype (8 * image.dtype.itemsize) (8 * dtypeOut.itemsize - 1)
            true with
        | error e => rw [hs] at h; exact Except.noConfusion h
        | ok s0 =>
            rw [hs] at h
            simp only [Except.ok.injEq] at h
            subst h
            intro v hv
            simp only [List.mem_map] at hv
            obtain ⟨z, hz, hzv⟩ := hv
            subst hzv
            exact viewAs_range s0.dtype dtypeOut z (Or.inr hko) hsz1
      · rw [if_neg hko] at h
        have hkou : dtypeOut.kind = .u := by
          cases hkk : dtypeOut.kind
          · exact absurd hkk hkb
          · exact rfl
          · exact absurd hkk hko
          · exact absurd hkk hkf
        cases hs : _scale l image.dtype (8 * image.dtype.itemsize) (8 * dtypeOut.itemsize) true with
        | error e => rw [hs] at h; exact Except.noConfusion h
        | ok s0 =>
            rw [hs] at h
            simp only [Except.ok.injEq] at h
            subst h
            rcases scale_true_inv l image.dtype _ _ s0 hs with ⟨hnm, hs0⟩ | ⟨hdb, g, hdata⟩
            · exfalso
              apply hne
              refine dtype_eq image.dtype dtypeOut (by rw [hki, hkou]) ?_
              omega
            · have hdb2 : _dtype_bits NumKind.u (8 * dtypeOut.itemsize) 1 = some s0.dtype := by
                rw [← hki]; exact hdb
              rw [dtbits_u dtypeOut.itemsize hszo] at hdb2
              have hsd : s0.dtype = ⟨NumKind.u, dtypeOut.itemsize⟩ :=
                (Option.some.injEq _ _ ▸ hdb2).symm
              have hout : (⟨NumKind.u, dtypeOut.itemsize⟩ : DType) = dtypeOut :=
                dtype_eq _ _ (by rw [hkou]) rfl
              intro v hv
              rw [hdata] at hv
              simp only [List.mem_map] at hv
              obtain ⟨z, hz, hzv⟩ := hv
              subst hzv
              rw [← hout, ← hsd]
              exact wrapCast_range s0.dtype _ (Or.inl (by rw [hsd])) (by rw [hsd]; exact hsz1)
  | bools l => rw [hd] at h; exact Except.noConfusion h
  | floats l => rw [hd] at h; exact Except.noConfusion h

/-- Containment for the signed-to-signed block: the narrowing arm returns
the scaled array, whose dtype a successful `_scale` ties to the target
width; the widening arm ends with a wrapped cast into the target. -/
theorem convertIntToInt_range (image : Image) (dtypeOut : DType) (ws : List Warning)
    (r : ConvResult) (hki : image.dtype.kind = .i) (hko : dtypeOut.kind = .i)
    (hszo : dtypeOut.itemsize ∈ ([1, 2, 4, 8] : List ℕ))
    (h : convertIntToInt image dtypeOut ws = .ok r) :
    dataInRange dtypeOut r.out.data := by
  have hsz1 : 1 ≤ dtypeOut.itemsize := by
    have hd4 : dtypeOut.itemsize = 1 ∨ dtypeOut.itemsize = 2 ∨ dtypeOut.itemsize = 4
        ∨ dtypeOut.itemsize = 8 := by simpa using hszo
    omega
  unfold convertIntToInt at h
  cases hd : image.data with
  | ints l =>
      rw [hd] at h
      dsimp only at h
      by_cases hlt : dtypeOut.itemsize < image.dtype.itemsize
      · rw [if_pos hlt] at h
        cases hs : _scale l image.dtype (8 * image.dtype.itemsize - 1)
            (8 * dtypeOut.itemsize - 1) true with
        | error e => rw [hs] at h; exact Except.noConfusion h
        | ok s0 =>
            rw [hs] at h
            simp only [Except.ok.injEq] at h
            subst h
            rcases scale_true_inv l image.dtype _ _ s0 hs with ⟨hnm, hs0⟩ | ⟨hdb, g, hdata⟩
            · omega
            · have hdb2 : _dtype_bits NumKind.i (8 * dtypeOut.itemsize - 1) 1 = some s0.dtype := by
                rw [← hki]; exact hdb
              rw [dtbits_i dtypeOut.itemsize hszo] at hdb2
              have hsd : s0.dtype = ⟨NumKind.i, dtypeOut.itemsize⟩ :=
                (Option.some.injEq _ _ ▸ hdb2).symm
              have hout : (⟨NumKind.i, dtypeOut.itemsize⟩ : DType) = dtypeOut :=
                dtype_eq _ _ (by rw [hko]) rfl
              intro v hv
              rw [hdata] at hv
              simp only [List.mem_map] at hv
              obtain ⟨z, hz, hzv⟩ := hv
              subst hzv
              rw [← hout, ← hsd]
              exact wrapCast_range s0.dtype _ (Or.inr (by rw [hsd])) (by rw [hsd]; exact hsz1)
      · rw [if_neg hlt] at h
        cases hdbw : _dtype_bits NumKind.i (dtypeOut.itemsize * 8) 1 with
        | none => rw [hdbw] at h; exact Except.noConfusion h
        | some wdt =>
            rw [hdbw] at h
            dsimp only at h
            cases hs : _scale (l.map (fun v => wrapCast wdt (wrapCast wdt v - imin image.dtype)))
                wdt (8 * image.dtype.itemsize) (8 * dtypeOut.itemsize) false with
            | error e => rw [hs] at h; exact Except.noConfusion h
            | ok s0 =>
                rw [hs] at h
                simp only [Except.ok.injEq] at h
                subst h
                intro v hv
                simp only [List.mem_map] at hv
                obtain ⟨z, hz, hzv⟩ := hv
                subst hzv
                exact wrapCast_range dtypeOut _ (Or.inr hko) hsz1
  | bools l => rw [hd] at h; exact Except.noConfusion h
  | floats l => rw [hd] at h; exact Except.noConfusion h

/-- Claim C6 (amended): for every pair of supported dtypes and every
well-formed input array, every element of any array `convert` returns
lies within the target descriptor representable range (the fast path
returns the input, whose values are in range because input and target
dtypes coincide; every other successful path ends in a threshold,
a clip, a wrapped cast, a view reinterpretation, or an exact scaling into
the target width). -/
theorem C6_range_containment (img : Image) (dtypeOut : DType) (fc u iw : Bool)
    (r : ConvResult) (h1 : img.dtype ∈ _supported_types) (h2 : dtypeOut ∈ _supported_types)
    (hwf : wellFormed img = true) (h : convert img dtypeOut fc u iw = .ok r) :
    dataInRange dtypeOut r.out.data := by
  have hmem2 := supported_itemsize_mem dtypeOut h2
  have hsz2 : 1 ≤ dtypeOut.itemsize := by
    have hd4 : dtypeOut.itemsize = 1 ∨ dtypeOut.itemsize = 2 ∨ dtypeOut.itemsize = 4
        ∨ dtypeOut.itemsize = 8 := by simpa using hmem2
    omega
  have hmem1 := supported_itemsize_mem img.dtype h1
  have hsz1 : 1 ≤ img.dtype.itemsize := by
    have hd4 : img.dtype.itemsize = 1 ∨ img.dtype.itemsize = 2 ∨ img.dtype.itemsize = 4
        ∨ img.dtype.itemsize = 8 := by simpa using hmem1
    omega
  unfold convert at h
  by_cases hid : img.dtype = dtypeOut
  · rw [if_pos hid] at h
    simp only [Except.ok.injEq] at h
    subst h
    rw [← hid]
    exact wellFormed_dataInRange img hwf
  · rw [if_neg hid, if_neg (not_not_intro ⟨h1, h2⟩)] at h
    by_cases hob : dtypeOut.kind = .b
    · rw [if_pos hob] at h
      exact convertAnyToBool_range img dtypeOut _ r h
    · rw [if_neg hob] at h
      by_cases hib : img.dtype.kind = .b
      · rw [if_pos hib] at h
        exact convertBoolToAny_range img dtypeOut _ r hob hsz2 h
      · rw [if_neg hib] at h
        by_cases hif : img.dtype.kind = .f
        · rw [if_pos hif] at h
          exact convertFloatIn_range img dtypeOut u _ r h
        · rw [if_neg hif] at h
          by_cases hof : dtypeOut.kind = .f
          · rw [if_pos hof] at h
            exact convertIntToFloat_range img dtypeOut _ r hsz1 hwf h
          · rw [if_neg hof] at h
            by_cases hiu : img.dtype.kind = .u
            · rw [if_pos hiu] at h
              exact convertFromUint_range img dtypeOut _ r hiu hob hof hid hmem2 h
            · rw [if_neg hiu] at h
              have hki : img.dtype.kind = .i := by
                cases hkk : img.dtype.kind
                · exact absurd hkk hib
                · exact absurd hkk hiu
                · exact rfl
                · exact absurd hkk hif
              by_cases hou : dtypeOut.kind = .u
              · rw [if_pos hou] at h
                exact convertIntToUint_range img dtypeOut _ r hou hsz2 h
              · rw [if_neg hou] at h
                have hko : dtypeOut.kind = .i := by
                  cases hkk : dtypeOut.kind
                  · exact absurd hkk hob
                  · exact absurd hkk hou
                  · exact rfl
                  · exact absurd hkk hof
                exact convertIntToInt_range img dtypeOut _ r hki hko hmem2 h

/-- Witness for C6 on a concrete conversion: uint16 `[77]` to uint8 takes
the downcast path and the output values lie inside the uint8 range. -/
theorem C6_witness : dataInRange u1dt (ArrData.ints [77]) :=
  C6_range_containment ⟨u2dt, .ints [77]⟩ u1dt false false true
    ⟨⟨u1dt, .ints [77]⟩, [Warning.precLoss, Warning.downcast], false⟩
    (by decide) (by decide) (by decide) (by decide)

end SkImage